import Mathlib

/-!
Shallow embedding of the `WebCrawler` class of `web_crawler.py` from the
Knowledgebase repository, together with proofs about the crawl loop, the
soft-block handling, the dedup ledger, the extractors, the link filter and
the filename derivation.

Modelling conventions:
* Raw byte payloads (`response.content`, image bytes, PDF bytes) are `String`s.
* Library calls (requests, BeautifulSoup, pdfplumber/fitz, pandas, hashlib,
  urllib) are abstracted as fields of an `Env` record of oracle functions;
  all of the crawler's own control flow and state manipulation is translated
  directly from the source.
* Python exceptions are modelled with `Except`: a raised exception carries the
  state at the moment of the raise (mutations made before the raise persist).
* The on-disk world (documents directory, url-mapping file, context file,
  hashed-content file) lives in the `Store` record; `diskHashes` models the
  contents of `hashed_content.txt` while `contentHashes` is the in-memory set.
* Free-text context payloads passed to `update_context_data` are elided:
  `contextData` records which (filename, url) pairs received a context entry.
-/

namespace WebCrawler

/-- Python's `sub in s` substring test, on the character lists of the strings. -/
def strContains (s pat : String) : Bool :=
  decide (List.IsInfix pat.toList s.toList)

/-- Python's `str.lower`, on the character list. -/
def strToLower (s : String) : String :=
  String.mk (s.toList.map Char.toLower)

/-- Python's `str.startswith`, as used for the `^https?://` regex test. -/
def strStartsWith (s pat : String) : Bool :=
  pat.toList.isPrefixOf s.toList

/-- Python's `str.endswith`. -/
def strEndsWith (s pat : String) : Bool :=
  pat.toList.reverse.isPrefixOf s.toList.reverse

/-- Python's `str.strip`. -/
def strTrim (s : String) : String :=
  String.mk
    (((s.toList.dropWhile Char.isWhitespace).reverse.dropWhile Char.isWhitespace).reverse)

/-- Split a character list at the characters satisfying `p`, keeping empty
chunks. -/
def splitChars (p : Char → Bool) : List Char → List (List Char)
  | [] => [[]]
  | c :: rest =>
    match splitChars p rest with
    | [] => [[]]
    | chunk :: more =>
      if p c then [] :: chunk :: more else (c :: chunk) :: more

/-- Python's `str.splitlines` (up to a trailing empty chunk, which the
caller's word-count filter discards anyway). -/
def splitLinesStr (s : String) : List String :=
  (splitChars (fun c => c = '\n') s.toList).map String.mk

/-- Python's whitespace `str.split()`: the maximal non-whitespace runs. -/
def splitWsStr (s : String) : List String :=
  ((splitChars Char.isWhitespace s.toList).filter (fun w => w ≠ [])).map String.mk

/-- Python's `sep.join`. -/
def strJoin (sep : String) : List String → String
  | [] => ""
  | [x] => x
  | x :: y :: xs => x ++ sep ++ strJoin sep (y :: xs)

/-- One cell grid extracted from a PDF page by `page.extract_tables()`. -/
abbrev PdfTable := List (List String)

/-- Model of one PDF page as seen through pdfplumber and fitz. -/
structure PdfPage where
  /-- Result of pdfplumber's `page.extract_text()`; `none` models Python `None`. -/
  extractText : Option String
  /-- Result of fitz's `page.get_text("text")` (always a string). -/
  fitzText : String
  /-- Byte payloads of the embedded images of the page (fitz `extract_image`). -/
  images : List String
  /-- Result of pdfplumber's `page.extract_tables()`. -/
  tables : List PdfTable
deriving DecidableEq, Repr

/-- The GitHub read-only code viewer DOM node of `scrape_text_from_html`. -/
structure CodeView where
  /-- Text of the breadcrumbs-filename `h1`, when the tag is present. -/
  filename : Option String
  /-- Text of the sibling of the git-branch icon, when present. -/
  branch : Option String
  /-- `code.get_text(separator=' ')` of the textarea. -/
  text : String
deriving DecidableEq, Repr

/-- One `<img>` element together with the context pieces the crawler reads. -/
structure HtmlImg where
  /-- `img.get('src')`; `none` models a missing attribute. -/
  src : Option String
  /-- `img.get('alt', '')`. -/
  alt : String
  /-- Text of the next `<figcaption>`, or `""`. -/
  caption : String
  /-- `' '.join(img.find_parent().stripped_strings)`. -/
  surrounding : String
deriving DecidableEq, Repr

/-- A parsed HTML document as seen through the BeautifulSoup queries the
crawler performs. -/
structure HtmlDoc where
  /-- `href` values of the `soup.find_all('a', href=True)` anchors, in order. -/
  anchors : List String
  /-- `str(table)` of each `<table>` element, in order. -/
  tables : List String
  /-- The read-only code textarea, when the fixed attribute set matches. -/
  codeView : Option CodeView
  /-- Joined `get_text` of the `div[itemprop=articleBody]` node, when found. -/
  articleBody : Option String
  /-- Joined `get_text` of the stripped-page fallback path. -/
  fallbackText : String
  /-- The `<img>` elements of the page, in order. -/
  imgs : List HtmlImg
deriving DecidableEq, Repr

/-- Outcome of `requests.get` on a frontier URL. -/
inductive FetchResult where
  /-- A response object with `status_code`, `text` and raw `content`. -/
  | httpResp (status : Nat) (text : String) (content : String)
  /-- A raised `requests.RequestException`. -/
  | requestExc
deriving DecidableEq, Repr

/-- Outcome of `requests.get` on an image URL. -/
inductive ImgFetchResult where
  /-- A response with `status_code` and raw `content`. -/
  | resp (status : Nat) (content : String)
  /-- A raised `requests.RequestException`. -/
  | requestExc
deriving DecidableEq, Repr

/-- Oracle functions modelling the libraries the crawler calls. `net url n`
is the result of the (n+1)-st `requests.get` of `url` from the crawl loop. -/
structure Env where
  net : String → Nat → FetchResult
  imgNet : String → ImgFetchResult
  /-- `urllib.parse.urljoin`. -/
  urljoin : String → String → String
  /-- `urlparse(href).netloc`. -/
  netloc : String → String
  /-- `hashlib.md5(str(payload).encode('utf-8')).hexdigest()`. -/
  md5hex : String → String
  /-- `BeautifulSoup(text, 'html.parser')` plus the fixed queries. -/
  parseHtml : String → HtmlDoc
  /-- pdfplumber/fitz parse of a byte payload; `none` models a raised parse
  error (e.g. `PDFSyntaxError` on a non-PDF payload). -/
  parsePdf : String → Option (List PdfPage)
  /-- `pd.read_html(io.StringIO(str(table)))` then `tables_list[0].to_csv`;
  `none` models a raised/propagated `ValueError` or an empty result list. -/
  readHtmlTable : String → Option String
  /-- `pd.DataFrame(table[1:], columns=table[0]).to_csv(index=False)`. -/
  csvOfTable : PdfTable → String
  /-- `get_image_format`: PIL sniffing with the `"svg"` fallback. -/
  imageFormat : String → String

/-- The crawl configuration (constructor arguments plus the fixed delays). -/
structure Config where
  startUrls : List String
  allowedDomains : List String
  nonContentPhrases : List String
  blackListedImgs : List String
  maxDepth : Nat
  maxPages : Nat
  /-- `self.delay = 1`. -/
  delay : Nat
  /-- `self.retry_delay = 60`. -/
  retryDelay : Nat
deriving DecidableEq, Repr

/-- Durable state: documents directory, url-mapping file, context file, and
the hashed-content file, plus the in-memory `self.content_hashes` set. -/
structure Store where
  /-- `self.content_hashes` (in memory). -/
  contentHashes : List String
  /-- Contents of `hashed_content.txt` on disk. -/
  diskHashes : List String
  /-- The documents directory: filename to file contents. -/
  files : List (String × String)
  /-- `url_mapping.yml`: filename to source url. -/
  urlMapping : List (String × String)
  /-- `context_data.yaml`: filenames given a context entry, with source url. -/
  contextData : List (String × String)
deriving DecidableEq, Repr

/-- Full crawler state during `crawl()`. `fetchLog` records the URLs passed to
`requests.get` by the crawl loop, in order; `sleepLog` records `time.sleep`
durations, in order. -/
structure CrawlState where
  visited : List String
  urlsToVisit : List (String × Nat)
  pagesCrawled : Nat
  fetchLog : List String
  sleepLog : List Nat
  store : Store
deriving DecidableEq, Repr

/-- Write-or-overwrite of a keyed entry: models both a file write into the
documents directory and the dictionary upserts of `update_url_mapping` and
`update_context_data`. -/
def upsert (m : List (String × String)) (k v : String) : List (String × String) :=
  if m.any (fun p => p.1 = k) then m.map (fun p => if p.1 = k then (k, v) else p)
  else m ++ [(k, v)]

/-- `WebCrawler.url_to_filename`: drop the first 8 characters of the URL,
replace the characters of the class `[<>:"./\\|?*]` by underscores, then add
the name extension and (unless `no_type`) a dot and the format. -/
def url_to_filename (url fileFormat : String) (noType : Bool) (nameExtension : String) : String :=
  let filename := String.mk ((url.toList.drop 8).map fun c =>
    if c ∈ ['<', '>', ':', '"', '.', '/', '\\', '|', '?', '*'] then '_' else c)
  if noType then filename ++ nameExtension
  else filename ++ nameExtension ++ "." ++ fileFormat

/-- `WebCrawler.save_hashes`: write the in-memory hash set to
`hashed_content.txt`. -/
def save_hashes (s : CrawlState) : CrawlState :=
  { s with store := { s.store with diskHashes := s.store.contentHashes } }

/-- `WebCrawler.process_images`: unless the image URL mentions logo/icon,
hash the bytes, and if the hash is new, record it, derive a filename when none
was supplied, write the image file and update the url mapping and the context
data. -/
def process_images (env : Env) (st : Store) (imgData imgUrl : String)
    (imgFilename : Option String) : Store :=
  if !(strContains (strToLower imgUrl) "logo") && !(strContains (strToLower imgUrl) "icon") then
    let imgHash := env.md5hex imgData
    if imgHash ∈ st.contentHashes then st
    else
      let st1 := { st with contentHashes := st.contentHashes ++ [imgHash] }
      let fname := match imgFilename with
        | some f => f
        | none => url_to_filename imgUrl (strToLower (env.imageFormat imgData)) false ""
      { st1 with files := upsert st1.files fname imgData,
                 urlMapping := upsert st1.urlMapping fname imgUrl,
                 contextData := upsert st1.contextData fname imgUrl }
  else st

/-- `WebCrawler.scrape_text_from_pdf`. The loop builds
`text = f"{text}\n{page_text}"` with `page_text = page.extract_text() + "\n"`,
but the file write after the loop writes `page_text` — the text of the last
page only. A `None` from `extract_text` raises a `TypeError` on the `+ "\n"`;
an empty page list leaves `page_text` unbound and the write raises a
`NameError`; a parse failure raises from `pdfplumber.open`. -/
def scrape_text_from_pdf (env : Env) (st : Store) (url pdfContent : String) :
    Except Store Store :=
  let filename := url_to_filename url "txt" false ""
  match env.parsePdf pdfContent with
  | none => .error st
  | some pages =>
    match pages.foldl (fun acc page =>
        match acc with
        | .error e => .error e
        | .ok (text, _) =>
          match page.extractText with
          | none => .error ()
          | some t =>
            let pageText := t ++ "\n"
            .ok (text ++ "\n" ++ pageText, some pageText))
      (Except.ok (("" : String), (none : Option String))) with
    | .error _ => .error st
    | .ok (_, none) => .error st
    | .ok (_, some pageText) =>
      .ok { st with files := upsert st.files filename pageText,
                    urlMapping := upsert st.urlMapping filename url }

/-- `WebCrawler.scrape_images_from_pdf`: for page `i` and embedded image `j`
(0-based), keep payloads over 20480 bytes, derive the
`_page_{i+1}_image_{j+1}` filename and hand off to `process_images` with the
PDF's URL. A parse failure raises from `fitz.open`. -/
def scrape_images_from_pdf (env : Env) (st : Store) (url pdfContent : String) :
    Except Store Store :=
  match env.parsePdf pdfContent with
  | none => .error st
  | some pages =>
    .ok <| (pages.enum).foldl (fun st1 ip =>
      ((ip.2.images).enum).foldl (fun st2 jb =>
        if 20480 < jb.2.length then
          let imgFormat := env.imageFormat jb.2
          let imgFilename := url_to_filename url (strToLower imgFormat) false
            ("_page_" ++ toString (ip.1 + 1) ++ "_image_" ++ toString (jb.1 + 1))
          process_images env st2 jb.2 url (some imgFilename)
        else st2) st1) st

/-- `WebCrawler.scrape_tables_from_pdf`: for page `i` and extracted table `j`
(0-based), skip empty grids, write the CSV under the
`_page_{i+1}_table_{j+1}.csv` name and update the url mapping and context
data. A parse failure raises from `pdfplumber.open`. -/
def scrape_tables_from_pdf (env : Env) (st : Store) (url pdfContent : String) :
    Except Store Store :=
  match env.parsePdf pdfContent with
  | none => .error st
  | some pages =>
    .ok <| (pages.enum).foldl (fun st1 ip =>
      ((ip.2.tables).enum).foldl (fun st2 jt =>
        if jt.2 ≠ [] then
          let tableFilename := url_to_filename url "" true
            ("_page_" ++ toString (ip.1 + 1) ++ "_table_" ++ toString (jt.1 + 1) ++ ".csv")
          { st2 with files := upsert st2.files tableFilename (env.csvOfTable jt.2),
                     urlMapping := upsert st2.urlMapping tableFilename url,
                     contextData := upsert st2.contextData tableFilename url }
        else st2) st1) st

/-- `WebCrawler.process_pdf`: text, then images, then tables; a raise in any
pass propagates. -/
def process_pdf (env : Env) (st : Store) (url content : String) : Except Store Store :=
  match scrape_text_from_pdf env st url content with
  | .error st1 => .error st1
  | .ok st1 =>
    match scrape_images_from_pdf env st1 url content with
    | .error st2 => .error st2
    | .ok st2 => scrape_tables_from_pdf env st2 url content

/-- `WebCrawler.scrape_text_from_html`: the code-viewer branch emits the
`Filename:`/`Branch:` header with a fenced block; otherwise the article body
(or the stripped-page fallback) is split into lines, keeping lines with more
than two whitespace-separated words containing no configured non-content
phrase. A non-blank result is written as `<url>.txt` with a mapping update. -/
def scrape_text_from_html (cfg : Config) (st : Store) (url : String) (doc : HtmlDoc) :
    Store :=
  let filteredText :=
    match doc.codeView with
    | some cv =>
      let filename := cv.filename.getD "unknown_filename"
      let branch := cv.branch.getD "unknown_branch"
      "Filename: " ++ filename ++ "\nBranch: " ++ branch ++ "\n\n```\n" ++ cv.text ++ "\n```\n"
    | none =>
      let text :=
        match doc.articleBody with
        | some t => t
        | none => doc.fallbackText
      let contentLines := (splitLinesStr text).filter (fun line =>
        decide (2 < (splitWsStr line).length) &&
        !(cfg.nonContentPhrases.any (fun phrase => strContains line phrase)))
      strJoin "\n" contentLines
  if strTrim filteredText ≠ "" then
    let filename := url_to_filename url "txt" false ""
    { st with urlMapping := upsert st.urlMapping filename url,
              files := upsert st.files filename filteredText }
  else st

/-- `WebCrawler.scrape_tables_from_html`: each `<table>` is fed to
`pd.read_html`; a `ValueError` (or an empty result list) is caught and only
warned about. Every successful table of the page is written under the same
`<url>.csv` filename — the `enumerate` index is unused in the source. -/
def scrape_tables_from_html (env : Env) (st : Store) (url : String) (doc : HtmlDoc) :
    Store :=
  (doc.tables.enum).foldl (fun st1 it =>
    match env.readHtmlTable it.2 with
    | some csv =>
      let tableFilename := url_to_filename url "csv" false ""
      { st1 with files := upsert st1.files tableFilename csv,
                 urlMapping := upsert st1.urlMapping tableFilename url,
                 contextData := upsert st1.contextData tableFilename url }
    | none => st1) st

/-- The context f-string of `scrape_images_from_html`. -/
def img_context (baseUrl : String) (img : HtmlImg) : String :=
  "alt: " ++ img.alt ++ ", caption: " ++ img.caption ++
    ", surrounding_text: " ++ img.surrounding ++ ", base_url: " ++ baseUrl

/-- `WebCrawler.is_descriptive_image`. -/
def is_descriptive_image (cfg : Config) (imgUrl context : String) : Bool :=
  let lowerUrl := strToLower imgUrl
  if ["logo", "icon", "favicon", "sprite", "banner", "button"].any
      (fun keyword => strContains lowerUrl keyword) then false
  else if strContains (strToLower context) "logo" ||
      strContains (strToLower context) "icon" ||
      strContains (strToLower context) "button" then false
  else if imgUrl ∈ cfg.blackListedImgs then false
  else true

/-- `WebCrawler.scrape_images_from_html`: skip images without a (truthy) src,
resolve the src, fetch; a `RequestException` is caught and warned about; keep
200 responses over 20480 bytes passing the descriptiveness heuristic. -/
def scrape_images_from_html (env : Env) (cfg : Config) (st : Store)
    (baseUrl : String) (doc : HtmlDoc) : Store :=
  doc.imgs.foldl (fun st1 img =>
    let context := img_context baseUrl img
    match img.src with
    | none => st1
    | some src =>
      if src = "" then st1
      else
        let imgUrl := env.urljoin baseUrl src
        match env.imgNet imgUrl with
        | .requestExc => st1
        | .resp status content =>
          if status = 200 ∧ 20480 < content.length then
            if is_descriptive_image cfg imgUrl context then
              process_images env st1 content imgUrl none
            else st1
          else st1) st

/-- `WebCrawler.process_html`: tables, then text, then images. -/
def process_html (env : Env) (cfg : Config) (st : Store) (url : String) (doc : HtmlDoc) :
    Store :=
  let st1 := scrape_tables_from_html env st url doc
  let st2 := scrape_text_from_html cfg st1 url doc
  scrape_images_from_html env cfg st2 baseUrl₀ doc
where
  baseUrl₀ := url

/-- `WebCrawler.process_response`: a body containing "surge protection"
(case-insensitively) sleeps the retry delay and re-enqueues `(url, depth)` at
the tail; otherwise the raw content is hashed and, when the hash is new, it is
recorded and the payload routed by the `.pdf` URL-suffix test. -/
def process_response (env : Env) (cfg : Config) (s : CrawlState)
    (respText respContent url : String) (depth : Nat) : Except CrawlState CrawlState :=
  if strContains (strToLower respText) "surge protection" then
    .ok { s with sleepLog := s.sleepLog ++ [cfg.retryDelay],
                 urlsToVisit := s.urlsToVisit ++ [(url, depth)] }
  else
    let contentHash := env.md5hex respContent
    if contentHash ∈ s.store.contentHashes then .ok s
    else
      let st := { s.store with contentHashes := s.store.contentHashes ++ [contentHash] }
      if strEndsWith (strToLower url) ".pdf" then
        match process_pdf env st url respContent with
        | .ok st1 => .ok { s with store := st1 }
        | .error st1 => .error { s with store := st1 }
      else
        .ok { s with store := process_html env cfg st url (env.parseHtml respText) }

/-- `re.match(r'^https?://', href)` then `urljoin(base_url, href)` when the
match fails. -/
def resolve_href (env : Env) (baseUrl href : String) : String :=
  if strStartsWith href "http://" || strStartsWith href "https://" then href
  else env.urljoin baseUrl href

/-- The allowed-domain test of `parse_links`: some configured domain is a
substring of the netloc of the (resolved) href. -/
def link_allowed (env : Env) (cfg : Config) (href : String) : Bool :=
  cfg.allowedDomains.any (fun d => strContains (env.netloc href) d)

/-- Body of the anchor loop of `WebCrawler.parse_links`. -/
def parse_links_step (env : Env) (cfg : Config) (baseUrl : String) (depth : Nat)
    (s1 : CrawlState) (rawHref : String) : CrawlState :=
  let href := resolve_href env baseUrl rawHref
  if link_allowed env cfg href then
    if href ∈ s1.visited then s1
    else { s1 with urlsToVisit := s1.urlsToVisit ++ [(href, depth + 1)] }
  else s1

/-- `WebCrawler.parse_links`: resolve each anchor href, keep it when an
allowed-domain substring occurs in its netloc, and enqueue it at `depth + 1`
when not already visited. -/
def parse_links (env : Env) (cfg : Config) (s : CrawlState) (doc : HtmlDoc)
    (baseUrl : String) (depth : Nat) : CrawlState :=
  doc.anchors.foldl (parse_links_step env cfg baseUrl depth) s

/-- Outcome of one iteration of the `while` loop of `crawl()`. -/
inductive StepOut where
  /-- Control returns to the `while` condition with the given state. -/
  | stepNext (s : CrawlState)
  /-- The loop exits and the final `save_hashes` has run. -/
  | stepDone (s : CrawlState)
  /-- An uncaught exception propagates out of `crawl()` with the given state. -/
  | stepRaise (s : CrawlState)
deriving DecidableEq, Repr

/-- The state carried by a `StepOut`. -/
def StepOut.state : StepOut → CrawlState
  | .stepNext s => s
  | .stepDone s => s
  | .stepRaise s => s

/-- Whether a `StepOut` is `stepNext`. -/
def StepOut.isNext : StepOut → Bool
  | .stepNext _ => true
  | _ => false

/-- One iteration of the `while` loop of `WebCrawler.crawl` (including the
loop condition, and the trailing `save_hashes` on exit): pop the head entry,
skip it when visited or too deep, otherwise mark it visited, fetch it, and on
a 200 process the response, parse links, bump `pages_crawled`, sleep the
inter-request delay and persist the hashes. Only `requests.RequestException`
is caught. -/
def crawl_step (env : Env) (cfg : Config) (s : CrawlState) : StepOut :=
  match s.urlsToVisit with
  | [] => .stepDone (save_hashes s)
  | (url, depth) :: rest =>
    if cfg.maxPages ≤ s.pagesCrawled then .stepDone (save_hashes s)
    else
      let s1 := { s with urlsToVisit := rest }
      if url ∈ s1.visited ∨ cfg.maxDepth < depth then .stepNext s1
      else
        let s2 := { s1 with visited := url :: s1.visited }
        let attempt := s2.fetchLog.count url
        let s3 := { s2 with fetchLog := s2.fetchLog ++ [url] }
        match env.net url attempt with
        | .requestExc => .stepNext s3
        | .httpResp status text content =>
          if status = 200 then
            match process_response env cfg s3 text content url depth with
            | .error s4 => .stepRaise s4
            | .ok s4 =>
              let s5 := parse_links env cfg s4 (env.parseHtml text) url depth
              let s6 := { s5 with pagesCrawled := s5.pagesCrawled + 1,
                                  sleepLog := s5.sleepLog ++ [cfg.delay] }
              .stepNext (save_hashes s6)
          else
            .stepNext (save_hashes { s3 with sleepLog := s3.sleepLog ++ [cfg.delay] })

/-- Result of running the crawl loop under a fuel bound. -/
inductive CrawlResult where
  /-- The loop exited normally (empty frontier or page budget reached). -/
  | finished (s : CrawlState)
  /-- An uncaught exception terminated `crawl()`. -/
  | crashed (s : CrawlState)
  /-- The fuel bound was exhausted first. -/
  | fuelOut (s : CrawlState)
deriving DecidableEq, Repr

/-- The state carried by a `CrawlResult`. -/
def CrawlResult.state : CrawlResult → CrawlState
  | .finished s => s
  | .crashed s => s
  | .fuelOut s => s

/-- Whether a `CrawlResult` is `finished`. -/
def CrawlResult.isFinished : CrawlResult → Bool
  | .finished _ => true
  | _ => false

/-- Whether a `CrawlResult` is `crashed`. -/
def CrawlResult.isCrashed : CrawlResult → Bool
  | .crashed _ => true
  | _ => false

/-- `WebCrawler.crawl`, as iteration of `crawl_step` under a fuel bound. -/
def crawl_loop (env : Env) (cfg : Config) : Nat → CrawlState → CrawlResult
  | 0, s => .fuelOut s
  | fuel + 1, s =>
    match crawl_step env cfg s with
    | .stepDone s1 => .finished s1
    | .stepRaise s1 => .crashed s1
    | .stepNext s1 => crawl_loop env cfg fuel s1

/-- `WebCrawler.__init__`: seed the frontier with the start URLs at depth 0
and load the hash ledger from disk. -/
def init_state (cfg : Config) (initialHashes : List String) : CrawlState :=
  { visited := []
    urlsToVisit := cfg.startUrls.map (fun u => (u, 0))
    pagesCrawled := 0
    fetchLog := []
    sleepLog := []
    store := { contentHashes := initialHashes, diskHashes := initialHashes,
               files := [], urlMapping := [], contextData := [] } }

/-- Modelled from the spec: the canonical PDF text output, "the text of all
pages concatenated with page-boundary newlines" — the value the source
accumulates in its `text` variable. -/
def pdf_text_concat_spec (pageTexts : List String) : String :=
  pageTexts.foldl (fun acc t => acc ++ "\n" ++ (t ++ "\n")) ""

/-- The store carried by an extractor result, raised or returned. -/
def estore : Except Store Store → Store
  | .ok st => st
  | .error st => st

/-- Whether an extractor result is a normal return. -/
def exOk : Except Store Store → Bool
  | .ok _ => true
  | .error _ => false

/-- The state carried by a `process_response` result, raised or returned. -/
def ecstate : Except CrawlState CrawlState → CrawlState
  | .ok s => s
  | .error s => s

/-- The in-memory hash set can only grow. -/
def HashMono (a b : Store) : Prop :=
  ∀ x, x ∈ a.contentHashes → x ∈ b.contentHashes

/-- An HTML document with no anchors, tables, code view, article body, body
text or images. -/
def emptyHtml : HtmlDoc :=
  { anchors := [], tables := [], codeView := none, articleBody := none,
    fallbackText := "", imgs := [] }

/-- The empty store. -/
def store0 : Store :=
  { contentHashes := [], diskHashes := [], files := [], urlMapping := [],
    contextData := [] }

/-- Baseline oracle environment for concrete runs: the hash function is the
identity, URL resolution keeps absolute hrefs, the netloc of a URL is the URL
itself, the network always raises, and parses fail. -/
def envBase : Env :=
  { net := fun _ _ => .requestExc
    imgNet := fun _ => .requestExc
    urljoin := fun _ href => href
    netloc := fun u => u
    md5hex := fun x => x
    parseHtml := fun _ => emptyHtml
    parsePdf := fun _ => none
    readHtmlTable := fun _ => none
    csvOfTable := fun _ => ""
    imageFormat := fun _ => "PNG" }

/-- A small generic configuration for concrete runs. -/
def cfgW : Config :=
  { startUrls := ["https://h/a"], allowedDomains := ["h"], nonContentPhrases := [],
    blackListedImgs := [], maxDepth := 2, maxPages := 10, delay := 1,
    retryDelay := 60 }

/-- Configuration with the page budget already small, for the budget witness. -/
def cfgB2 : Config :=
  { startUrls := ["https://h/a"], allowedDomains := ["h"], nonContentPhrases := [],
    blackListedImgs := [], maxDepth := 2, maxPages := 2, delay := 1,
    retryDelay := 60 }

/-- A state sitting exactly at the page budget of `cfgB2`. -/
def stateB2 : CrawlState :=
  { init_state cfgB2 [] with pagesCrawled := 2 }

/-- A state whose frontier head is deeper than `cfgW.maxDepth`. -/
def stateC6 : CrawlState :=
  { init_state cfgW [] with urlsToVisit := [("https://h/deep", 5)] }

/-- Configuration of the soft-block retry scenario: one start URL. -/
def cfgC1 : Config :=
  { startUrls := ["https://h/a"], allowedDomains := ["h"], nonContentPhrases := [],
    blackListedImgs := [], maxDepth := 2, maxPages := 10, delay := 1,
    retryDelay := 60 }

/-- Environment of the soft-block retry scenario: the first fetch of the start
URL returns a 200 soft-block interstitial and any further fetch would return a
normal 200 page whose body yields a text artifact. -/
def envC1 : Env :=
  { envBase with
    net := fun u n =>
      if u = "https://h/a" then
        if n = 0 then .httpResp 200 "Surge Protection - too many requests" "sbbody"
        else .httpResp 200 "real content" "realbody"
      else .requestExc
    parseHtml := fun t =>
      if t = "real content" then
        { emptyHtml with fallbackText := "this line has many words in it" }
      else emptyHtml }

/-- Environment of the two-page PDF scenario: the payload "rawpdf" parses into
pages with texts "A" and "B". -/
def envC2 : Env :=
  { envBase with
    parsePdf := fun b =>
      if b = "rawpdf" then
        some [{ extractText := some "A", fitzText := "A", images := [], tables := [] },
              { extractText := some "B", fitzText := "B", images := [], tables := [] }]
      else none }

/-- Configuration of the mis-suffixed-resource scenario: a `.pdf` URL first,
then a second URL. -/
def cfgC3 : Config :=
  { startUrls := ["https://h/x.pdf", "https://h/b"], allowedDomains := ["h"],
    nonContentPhrases := [], blackListedImgs := [], maxDepth := 2, maxPages := 10,
    delay := 1, retryDelay := 60 }

/-- Environment of the mis-suffixed-resource scenario: the `.pdf` URL serves a
200 whose body is not parsable as a PDF. -/
def envC3 : Env :=
  { envBase with
    net := fun u _ =>
      if u = "https://h/x.pdf" then .httpResp 200 "an html error page" "not a pdf"
      else .httpResp 200 "other" "otherbody" }

/-- Configuration of the link-filter witness. -/
def cfgC8 : Config :=
  { startUrls := ["https://good.org/start"], allowedDomains := ["good.org"],
    nonContentPhrases := [], blackListedImgs := [], maxDepth := 2, maxPages := 10,
    delay := 1, retryDelay := 60 }

/-- A state with an empty frontier for the link-filter witness. -/
def stateC8 : CrawlState :=
  { init_state cfgC8 [] with urlsToVisit := [] }

/-- A page with one in-domain anchor, for the link-filter witness. -/
def docC8 : HtmlDoc :=
  { emptyHtml with anchors := ["https://good.org/a"] }

/-- Environment of the two-HTML-tables scenario: both tables parse to CSV. -/
def envC9 : Env :=
  { envBase with
    readHtmlTable := fun t =>
      if t = "T1" then some "csv1" else if t = "T2" then some "csv2" else none }

/-- A page holding two `<table>` elements. -/
def docC9 : HtmlDoc :=
  { emptyHtml with tables := ["T1", "T2"] }

/-- The boundary state after the transport-exception witness step: the start
URL was popped, marked visited and its failed fetch logged. -/
def stateFinW : CrawlState :=
  { init_state cfgW [] with
      urlsToVisit := [], visited := ["https://h/a"], fetchLog := ["https://h/a"] }

/-- Configuration of the soft-block budget scenario. -/
def cfgC10 : Config :=
  { startUrls := ["https://h/sb"], allowedDomains := ["h"], nonContentPhrases := [],
    blackListedImgs := [], maxDepth := 2, maxPages := 10, delay := 1,
    retryDelay := 60 }

/-- Environment of the soft-block budget scenario: the first fetch of the
start URL soft-blocks, and the interstitial page carries one in-domain
anchor. -/
def envC10 : Env :=
  { envBase with
    net := fun u n =>
      if u = "https://h/sb" ∧ n = 0 then
        .httpResp 200 "surge protection active" "sb"
      else .requestExc
    parseHtml := fun t =>
      if t = "surge protection active" then
        { emptyHtml with anchors := ["https://h/next"] }
      else emptyHtml }

section Lemmas

variable (env : Env) (cfg : Config)

@[simp] lemma save_hashes_visited (s : CrawlState) : (save_hashes s).visited = s.visited := rfl

@[simp] lemma save_hashes_urls (s : CrawlState) :
    (save_hashes s).urlsToVisit = s.urlsToVisit := rfl

@[simp] lemma save_hashes_pages (s : CrawlState) :
    (save_hashes s).pagesCrawled = s.pagesCrawled := rfl

@[simp] lemma save_hashes_fetchLog (s : CrawlState) :
    (save_hashes s).fetchLog = s.fetchLog := rfl

@[simp] lemma save_hashes_disk (s : CrawlState) :
    (save_hashes s).store.diskHashes = s.store.contentHashes := rfl

@[simp] lemma save_hashes_hashes (s : CrawlState) :
    (save_hashes s).store.contentHashes = s.store.contentHashes := rfl

@[simp] lemma save_hashes_files (s : CrawlState) :
    (save_hashes s).store.files = s.store.files := rfl

@[simp] lemma stepOut_state_next (s : CrawlState) : (StepOut.stepNext s).state = s := rfl

@[simp] lemma stepOut_state_done (s : CrawlState) : (StepOut.stepDone s).state = s := rfl

@[simp] lemma stepOut_state_raise (s : CrawlState) : (StepOut.stepRaise s).state = s := rfl

@[simp] lemma crawlResult_state_finished (s : CrawlState) :
    (CrawlResult.finished s).state = s := rfl

@[simp] lemma crawlResult_state_crashed (s : CrawlState) :
    (CrawlResult.crashed s).state = s := rfl

@[simp] lemma crawlResult_state_fuelOut (s : CrawlState) :
    (CrawlResult.fuelOut s).state = s := rfl

@[simp] lemma estore_ok (st : Store) : estore (.ok st) = st := rfl

@[simp] lemma estore_error (st : Store) : estore (.error st) = st := rfl

@[simp] lemma ecstate_ok (s : CrawlState) : ecstate (.ok s) = s := rfl

@[simp] lemma ecstate_error (s : CrawlState) : ecstate (.error s) = s := rfl

lemma hashMono_refl (a : Store) : HashMono a a := fun _ hx => hx

lemma hashMono_trans {a b c : Store} (h1 : HashMono a b) (h2 : HashMono b c) :
    HashMono a c :=
  fun x hx => h2 x (h1 x hx)

lemma foldl_hashMono {α : Type} {f : Store → α → Store}
    (h : ∀ s x, HashMono s (f s x)) :
    ∀ (l : List α) (s : Store), HashMono s (l.foldl f s) := by
  intro l
  induction l with
  | nil => intro s; exact hashMono_refl s
  | cons a t ih =>
    intro s
    rw [List.foldl_cons]
    exact hashMono_trans (h s a) (ih (f s a))

lemma process_images_hashMono (st : Store) (imgData imgUrl : String)
    (imgFilename : Option String) :
    HashMono st (process_images env st imgData imgUrl imgFilename) := by
  intro x hx
  unfold process_images
  dsimp only
  split_ifs with h1 h2
  · exact hx
  · exact List.mem_append_left _ hx
  · exact hx

lemma scrape_text_from_pdf_hashes (st : Store) (url c : String) :
    (estore (scrape_text_from_pdf env st url c)).contentHashes = st.contentHashes := by
  unfold scrape_text_from_pdf
  split
  · rfl
  · split <;> rfl

lemma scrape_images_from_pdf_hashMono (st : Store) (url c : String) :
    HashMono st (estore (scrape_images_from_pdf env st url c)) := by
  unfold scrape_images_from_pdf
  split
  · exact hashMono_refl st
  · simp only [estore_ok]
    apply foldl_hashMono
    intro s1 ip
    apply foldl_hashMono
    intro s2 jb
    dsimp only
    split_ifs with h
    · exact process_images_hashMono env s2 jb.2 url _
    · exact hashMono_refl s2

lemma scrape_tables_from_pdf_hashMono (st : Store) (url c : String) :
    HashMono st (estore (scrape_tables_from_pdf env st url c)) := by
  unfold scrape_tables_from_pdf
  split
  · exact hashMono_refl st
  · simp only [estore_ok]
    apply foldl_hashMono
    intro s1 ip
    apply foldl_hashMono
    intro s2 jt
    dsimp only
    split_ifs with h
    · exact fun x hx => hx
    · exact hashMono_refl s2

lemma scrape_text_from_html_hashes (st : Store) (url : String) (doc : HtmlDoc) :
    (scrape_text_from_html cfg st url doc).contentHashes = st.contentHashes := by
  unfold scrape_text_from_html
  dsimp only
  split_ifs <;> rfl

lemma scrape_tables_from_html_hashes (st : Store) (url : String) (doc : HtmlDoc) :
    (scrape_tables_from_html env st url doc).contentHashes = st.contentHashes := by
  unfold scrape_tables_from_html
  generalize doc.tables.enum = l
  induction l generalizing st with
  | nil => rfl
  | cons a t ih =>
    rw [List.foldl_cons]
    rcases h : env.readHtmlTable a.2 with _ | csv <;> simp only [h] <;> exact ih _

lemma scrape_images_from_html_hashMono (st : Store) (baseUrl : String) (doc : HtmlDoc) :
    HashMono st (scrape_images_from_html env cfg st baseUrl doc) := by
  unfold scrape_images_from_html
  apply foldl_hashMono
  intro s1 img
  dsimp only
  rcases img.src with _ | src
  · exact hashMono_refl s1
  · dsimp only
    by_cases h1 : src = ""
    · rw [if_pos h1]
      exact hashMono_refl s1
    · rw [if_neg h1]
      rcases env.imgNet (env.urljoin baseUrl src) with ⟨status, content⟩ | _
      · dsimp only
        split_ifs with h2 h3
        · exact process_images_hashMono env s1 content _ none
        · exact hashMono_refl s1
        · exact hashMono_refl s1
      · exact hashMono_refl s1

lemma process_html_hashMono (st : Store) (url : String) (doc : HtmlDoc) :
    HashMono st (process_html env cfg st url doc) := by
  unfold process_html
  intro x hx
  apply scrape_images_from_html_hashMono
  rw [scrape_text_from_html_hashes, scrape_tables_from_html_hashes]
  exact hx

lemma process_pdf_hashMono (st : Store) (url c : String) :
    HashMono st (estore (process_pdf env st url c)) := by
  have htext := scrape_text_from_pdf_hashes env st url c
  unfold process_pdf
  rcases h1 : scrape_text_from_pdf env st url c with st1 | st1 <;>
      rw [h1] at htext <;> simp only [estore_error, estore_ok] at htext <;>
      simp only [h1]
  · -- raised in the text pass: the raise carries the unchanged store
    intro x hx
    simp only [estore_error, htext]
    exact hx
  · have hmono1 : HashMono st st1 := by
      intro x hx
      rw [htext]
      exact hx
    have himg := scrape_images_from_pdf_hashMono env st1 url c
    rcases h2 : scrape_images_from_pdf env st1 url c with st2 | st2 <;>
        rw [h2] at himg <;> simp only [estore_error, estore_ok] at himg <;>
        simp only [h2]
    · exact hashMono_trans hmono1 himg
    · have htab := scrape_tables_from_pdf_hashMono env st2 url c
      exact hashMono_trans hmono1 (hashMono_trans himg htab)

lemma process_response_frame (s : CrawlState) (text content url : String) (depth : Nat) :
    (ecstate (process_response env cfg s text content url depth)).visited = s.visited ∧
    (ecstate (process_response env cfg s text content url depth)).pagesCrawled =
      s.pagesCrawled ∧
    (ecstate (process_response env cfg s text content url depth)).fetchLog = s.fetchLog := by
  unfold process_response
  dsimp only
  split_ifs with h1 h2 h3
  · exact ⟨rfl, rfl, rfl⟩
  · exact ⟨rfl, rfl, rfl⟩
  · refine ⟨?_, ?_, ?_⟩ <;> (split <;> rfl)
  · exact ⟨rfl, rfl, rfl⟩

lemma parse_links_step_cases (baseUrl : String) (depth : Nat) (s1 : CrawlState)
    (raw : String) :
    parse_links_step env cfg baseUrl depth s1 raw = s1 ∨
    (link_allowed env cfg (resolve_href env baseUrl raw) = true ∧
     resolve_href env baseUrl raw ∉ s1.visited ∧
     parse_links_step env cfg baseUrl depth s1 raw =
       { s1 with urlsToVisit :=
           s1.urlsToVisit ++ [(resolve_href env baseUrl raw, depth + 1)] }) := by
  unfold parse_links_step
  dsimp only
  split_ifs with h1 h2
  · exact Or.inl rfl
  · exact Or.inr ⟨h1, h2, rfl⟩
  · exact Or.inl rfl

/-- Frame and soundness of the anchor fold of `parse_links`: only
`urlsToVisit` changes, by appending entries that are resolved anchors of the
list, pass the allowed-domain test, and were unvisited. -/
lemma parse_links_aux (baseUrl : String) (depth : Nat) :
    ∀ (l : List String) (s : CrawlState),
      ((l.foldl (parse_links_step env cfg baseUrl depth) s).visited = s.visited ∧
       (l.foldl (parse_links_step env cfg baseUrl depth) s).pagesCrawled =
         s.pagesCrawled ∧
       (l.foldl (parse_links_step env cfg baseUrl depth) s).fetchLog = s.fetchLog ∧
       (l.foldl (parse_links_step env cfg baseUrl depth) s).sleepLog = s.sleepLog ∧
       (l.foldl (parse_links_step env cfg baseUrl depth) s).store = s.store) ∧
      ∃ t, (l.foldl (parse_links_step env cfg baseUrl depth) s).urlsToVisit =
            s.urlsToVisit ++ t ∧
        ∀ e ∈ t, ∃ raw, raw ∈ l ∧
          e = (resolve_href env baseUrl raw, depth + 1) ∧
          link_allowed env cfg (resolve_href env baseUrl raw) = true ∧
          resolve_href env baseUrl raw ∉ s.visited := by
  intro l
  induction l with
  | nil =>
    intro s
    refine ⟨⟨rfl, rfl, rfl, rfl, rfl⟩, [], by simp, ?_⟩
    intro e he
    simp at he
  | cons a t ih =>
    intro s
    rw [List.foldl_cons]
    rcases parse_links_step_cases env cfg baseUrl depth s a with
      heq | ⟨ha, hnv, heq⟩
    · rw [heq]
      obtain ⟨hframe, w, hw, hgood⟩ := ih s
      refine ⟨hframe, w, hw, ?_⟩
      intro e he
      obtain ⟨raw, hraw, h2, h3, h4⟩ := hgood e he
      exact ⟨raw, List.mem_cons_of_mem a hraw, h2, h3, h4⟩
    · rw [heq]
      obtain ⟨hframe, w, hw, hgood⟩ :=
        ih { s with urlsToVisit :=
               s.urlsToVisit ++ [(resolve_href env baseUrl a, depth + 1)] }
      refine ⟨hframe, (resolve_href env baseUrl a, depth + 1) :: w, ?_, ?_⟩
      · rw [hw]
        simp
      · intro e he
        rcases List.mem_cons.mp he with rfl | he'
        · exact ⟨a, List.mem_cons_self a t, rfl, ha, hnv⟩
        · obtain ⟨raw, hraw, h2, h3, h4⟩ := hgood e he'
          exact ⟨raw, List.mem_cons_of_mem a hraw, h2, h3, h4⟩

/-- Completeness of the anchor fold: an anchor of the list whose resolution
passes the allowed-domain test and is unvisited ends up enqueued. -/
lemma parse_links_complete (baseUrl : String) (depth : Nat) :
    ∀ (l : List String) (s : CrawlState) (raw : String), raw ∈ l →
      link_allowed env cfg (resolve_href env baseUrl raw) = true →
      resolve_href env baseUrl raw ∉ s.visited →
      (resolve_href env baseUrl raw, depth + 1) ∈
        (l.foldl (parse_links_step env cfg baseUrl depth) s).urlsToVisit := by
  intro l
  induction l with
  | nil =>
    intro s raw h
    exact absurd h (List.not_mem_nil raw)
  | cons a t ih =>
    intro s raw hmem hall hnv
    rw [List.foldl_cons]
    rcases List.mem_cons.mp hmem with rfl | hmem'
    · have hstep : parse_links_step env cfg baseUrl depth s raw =
          { s with urlsToVisit :=
              s.urlsToVisit ++ [(resolve_href env baseUrl raw, depth + 1)] } := by
        unfold parse_links_step
        dsimp only
        rw [if_pos hall, if_neg hnv]
      rw [hstep]
      obtain ⟨_, w, hw, _⟩ := parse_links_aux env cfg baseUrl depth t _
      rw [hw]
      exact List.mem_append_left _ (List.mem_append_right _ (List.mem_singleton_self _))
    · rcases parse_links_step_cases env cfg baseUrl depth s a with
        heq | ⟨_, _, heq⟩
      · rw [heq]
        exact ih s raw hmem' hall hnv
      · rw [heq]
        exact ih _ raw hmem' hall hnv

/-- The soft-block branch of `process_response`. -/
lemma process_response_softblock (s : CrawlState) (text content url : String)
    (depth : Nat) (h : strContains (strToLower text) "surge protection" = true) :
    process_response env cfg s text content url depth =
      .ok { s with sleepLog := s.sleepLog ++ [cfg.retryDelay],
                   urlsToVisit := s.urlsToVisit ++ [(url, depth)] } := by
  unfold process_response
  rw [if_pos h]

/-- Exhaustive branch analysis of one crawl-loop iteration. -/
lemma crawl_step_main (s : CrawlState) :
    (s.urlsToVisit = [] ∧ crawl_step env cfg s = .stepDone (save_hashes s)) ∨
    (s.urlsToVisit ≠ [] ∧ cfg.maxPages ≤ s.pagesCrawled ∧
      crawl_step env cfg s = .stepDone (save_hashes s)) ∨
    (∃ url depth rest, s.urlsToVisit = (url, depth) :: rest ∧
      s.pagesCrawled < cfg.maxPages ∧ (url ∈ s.visited ∨ cfg.maxDepth < depth) ∧
      crawl_step env cfg s = .stepNext { s with urlsToVisit := rest }) ∨
    (∃ url depth rest, s.urlsToVisit = (url, depth) :: rest ∧
      s.pagesCrawled < cfg.maxPages ∧ url ∉ s.visited ∧ depth ≤ cfg.maxDepth ∧
      env.net url (s.fetchLog.count url) = .requestExc ∧
      crawl_step env cfg s = .stepNext
        { s with urlsToVisit := rest, visited := url :: s.visited,
                 fetchLog := s.fetchLog ++ [url] }) ∨
    (∃ url depth rest status text content, s.urlsToVisit = (url, depth) :: rest ∧
      s.pagesCrawled < cfg.maxPages ∧ url ∉ s.visited ∧ depth ≤ cfg.maxDepth ∧
      env.net url (s.fetchLog.count url) = .httpResp status text content ∧
      status ≠ 200 ∧
      crawl_step env cfg s = .stepNext (save_hashes
        { s with urlsToVisit := rest, visited := url :: s.visited,
                 fetchLog := s.fetchLog ++ [url],
                 sleepLog := s.sleepLog ++ [cfg.delay] })) ∨
    (∃ url depth rest text content s4, s.urlsToVisit = (url, depth) :: rest ∧
      s.pagesCrawled < cfg.maxPages ∧ url ∉ s.visited ∧ depth ≤ cfg.maxDepth ∧
      env.net url (s.fetchLog.count url) = .httpResp 200 text content ∧
      process_response env cfg
        { s with urlsToVisit := rest, visited := url :: s.visited,
                 fetchLog := s.fetchLog ++ [url] } text content url depth = .error s4 ∧
      crawl_step env cfg s = .stepRaise s4) ∨
    (∃ url depth rest text content s4, s.urlsToVisit = (url, depth) :: rest ∧
      s.pagesCrawled < cfg.maxPages ∧ url ∉ s.visited ∧ depth ≤ cfg.maxDepth ∧
      env.net url (s.fetchLog.count url) = .httpResp 200 text content ∧
      process_response env cfg
        { s with urlsToVisit := rest, visited := url :: s.visited,
                 fetchLog := s.fetchLog ++ [url] } text content url depth = .ok s4 ∧
      crawl_step env cfg s = .stepNext (save_hashes
        { parse_links env cfg s4 (env.parseHtml text) url depth with
          pagesCrawled :=
            (parse_links env cfg s4 (env.parseHtml text) url depth).pagesCrawled + 1,
          sleepLog :=
            (parse_links env cfg s4 (env.parseHtml text) url depth).sleepLog ++
              [cfg.delay] })) := by
  unfold crawl_step
  rcases hu : s.urlsToVisit with _ | ⟨⟨url, depth⟩, rest⟩
  · exact Or.inl ⟨rfl, rfl⟩
  · dsimp only
    by_cases hb : cfg.maxPages ≤ s.pagesCrawled
    · refine Or.inr (Or.inl ⟨by simp, hb, ?_⟩)
      rw [if_pos hb]
    · rw [if_neg hb]
      by_cases hskip : url ∈ s.visited ∨ cfg.maxDepth < depth
      · refine Or.inr (Or.inr (Or.inl ⟨url, depth, rest, rfl, not_le.mp hb, hskip, ?_⟩))
        rw [if_pos hskip]
      · rw [if_neg hskip]
        push_neg at hskip
        obtain ⟨hnv, hd⟩ := hskip
        rcases hnet : env.net url (s.fetchLog.count url) with ⟨status, text, content⟩ | _
        · dsimp only
          by_cases hst : status = 200
          · subst hst
            rw [if_pos rfl]
            rcases hpr : process_response env cfg
                { s with urlsToVisit := rest, visited := url :: s.visited,
                         fetchLog := s.fetchLog ++ [url] } text content url depth with
              s4 | s4
            · exact Or.inr (Or.inr (Or.inr (Or.inr (Or.inr (Or.inl
                ⟨url, depth, rest, text, content, s4, rfl, not_le.mp hb, hnv,
                  hd, hnet, hpr, rfl⟩)))))
            · exact Or.inr (Or.inr (Or.inr (Or.inr (Or.inr (Or.inr
                ⟨url, depth, rest, text, content, s4, rfl, not_le.mp hb, hnv,
                  hd, hnet, hpr, rfl⟩)))))
          · rw [if_neg hst]
            exact Or.inr (Or.inr (Or.inr (Or.inr (Or.inl
              ⟨url, depth, rest, status, text, content, rfl, not_le.mp hb, hnv,
                hd, hnet, hst, rfl⟩))))
        · exact Or.inr (Or.inr (Or.inr (Or.inl
            ⟨url, depth, rest, rfl, not_le.mp hb, hnv, hd, hnet, rfl⟩)))

lemma parse_links_frame (s : CrawlState) (doc : HtmlDoc) (baseUrl : String)
    (depth : Nat) :
    (parse_links env cfg s doc baseUrl depth).visited = s.visited ∧
    (parse_links env cfg s doc baseUrl depth).pagesCrawled = s.pagesCrawled ∧
    (parse_links env cfg s doc baseUrl depth).fetchLog = s.fetchLog ∧
    (parse_links env cfg s doc baseUrl depth).store = s.store := by
  have h := (parse_links_aux env cfg baseUrl depth doc.anchors s).1
  exact ⟨h.1, h.2.1, h.2.2.1, h.2.2.2.2⟩

lemma parse_links_urls (s : CrawlState) (doc : HtmlDoc) (baseUrl : String)
    (depth : Nat) :
    ∃ t, (parse_links env cfg s doc baseUrl depth).urlsToVisit = s.urlsToVisit ++ t ∧
      ∀ e ∈ t, ∃ raw, raw ∈ doc.anchors ∧
        e = (resolve_href env baseUrl raw, depth + 1) ∧
        link_allowed env cfg (resolve_href env baseUrl raw) = true ∧
        resolve_href env baseUrl raw ∉ s.visited :=
  (parse_links_aux env cfg baseUrl depth doc.anchors s).2

lemma parse_links_mem (s : CrawlState) (doc : HtmlDoc) (baseUrl : String)
    (depth : Nat) (raw : String) (hmem : raw ∈ doc.anchors)
    (hall : link_allowed env cfg (resolve_href env baseUrl raw) = true)
    (hnv : resolve_href env baseUrl raw ∉ s.visited) :
    (resolve_href env baseUrl raw, depth + 1) ∈
      (parse_links env cfg s doc baseUrl depth).urlsToVisit :=
  parse_links_complete env cfg baseUrl depth doc.anchors s raw
    hmem hall hnv

/-- `stepDone` arises only from the loop guard, and delivers `save_hashes` of
the guard-time state. -/
lemma crawl_step_done_inv (s s1 : CrawlState)
    (h : crawl_step env cfg s = .stepDone s1) :
    s1 = save_hashes s ∧ (s.urlsToVisit = [] ∨ cfg.maxPages ≤ s.pagesCrawled) := by
  rcases crawl_step_main env cfg s with
    ⟨hu, he⟩ | ⟨hu, hb, he⟩ | ⟨u, d, r, hu, hb, hsk, he⟩ |
    ⟨u, d, r, hu, hb, hnv, hd, hn, he⟩ |
    ⟨u, d, r, st, tx, ct, hu, hb, hnv, hd, hn, hst, he⟩ |
    ⟨u, d, r, tx, ct, s4, hu, hb, hnv, hd, hn, hp, he⟩ |
    ⟨u, d, r, tx, ct, s4, hu, hb, hnv, hd, hn, hp, he⟩
  · have h2 := he.symm.trans h
    simp only [StepOut.stepDone.injEq] at h2
    exact ⟨h2.symm, Or.inl hu⟩
  · have h2 := he.symm.trans h
    simp only [StepOut.stepDone.injEq] at h2
    exact ⟨h2.symm, Or.inr hb⟩
  · rw [he] at h
    exact absurd h (by simp)
  · rw [he] at h
    exact absurd h (by simp)
  · rw [he] at h
    exact absurd h (by simp)
  · rw [he] at h
    exact absurd h (by simp)
  · rw [he] at h
    exact absurd h (by simp)

/-- A normally finished loop stopped at an empty frontier or at the page
budget. -/
lemma crawl_loop_finished_inv :
    ∀ (fuel : Nat) (s s1 : CrawlState), crawl_loop env cfg fuel s = .finished s1 →
      s1.urlsToVisit = [] ∨ cfg.maxPages ≤ s1.pagesCrawled := by
  intro fuel
  induction fuel with
  | zero =>
    intro s s1 h
    simp [crawl_loop] at h
  | succ n ih =>
    intro s s1 h
    unfold crawl_loop at h
    rcases hstep : crawl_step env cfg s with s2 | s2 | s2 <;> rw [hstep] at h
    · exact ih s2 s1 h
    · have h2 : s2 = s1 := by
        simpa using h
      obtain ⟨hsave, hguard⟩ := crawl_step_done_inv env cfg s s2 hstep
      subst h2
      rw [hsave]
      simpa using hguard
    · simp at h

/-- One step never pushes `pagesCrawled` past `maxPages`. -/
lemma crawl_step_pages (s : CrawlState) (hle : s.pagesCrawled ≤ cfg.maxPages) :
    (crawl_step env cfg s).state.pagesCrawled ≤ cfg.maxPages := by
  rcases crawl_step_main env cfg s with
    ⟨hu, he⟩ | ⟨hu, hb, he⟩ | ⟨u, d, r, hu, hb, hsk, he⟩ |
    ⟨u, d, r, hu, hb, hnv, hd, hn, he⟩ |
    ⟨u, d, r, st, tx, ct, hu, hb, hnv, hd, hn, hst, he⟩ |
    ⟨u, d, r, tx, ct, s4, hu, hb, hnv, hd, hn, hp, he⟩ |
    ⟨u, d, r, tx, ct, s4, hu, hb, hnv, hd, hn, hp, he⟩
  · rw [he]
    simpa using hle
  · rw [he]
    simpa using hle
  · rw [he]
    simpa using hle
  · rw [he]
    simpa using hle
  · rw [he]
    simpa using hle
  · rw [he]
    have hf := (process_response_frame env cfg
      { s with urlsToVisit := r, visited := u :: s.visited,
               fetchLog := s.fetchLog ++ [u] } tx ct u d).2.1
    rw [hp] at hf
    simp only [ecstate_error] at hf
    simpa [hf] using hle
  · rw [he]
    have hf := (process_response_frame env cfg
      { s with urlsToVisit := r, visited := u :: s.visited,
               fetchLog := s.fetchLog ++ [u] } tx ct u d).2.1
    rw [hp] at hf
    simp only [ecstate_ok] at hf
    have hfr := (parse_links_frame env cfg s4 (env.parseHtml tx) u d).2.1
    simp only [stepOut_state_next, save_hashes_pages]
    show (parse_links env cfg s4 (env.parseHtml tx) u d).pagesCrawled + 1 ≤ cfg.maxPages
    rw [hfr, hf]
    exact Nat.succ_le_of_lt hb

/-- The page bound holds of every state the loop can deliver. -/
lemma crawl_loop_pages :
    ∀ (fuel : Nat) (s : CrawlState), s.pagesCrawled ≤ cfg.maxPages →
      (crawl_loop env cfg fuel s).state.pagesCrawled ≤ cfg.maxPages := by
  intro fuel
  induction fuel with
  | zero =>
    intro s hle
    simpa [crawl_loop] using hle
  | succ n ih =>
    intro s hle
    unfold crawl_loop
    have hstep := crawl_step_pages env cfg s hle
    rcases hcs : crawl_step env cfg s with s2 | s2 | s2 <;> rw [hcs] at hstep <;>
      simp only [stepOut_state_next, stepOut_state_done, stepOut_state_raise] at hstep
    · exact ih s2 hstep
    · simpa using hstep
    · simpa using hstep

/-- One step preserves agreement of `hashed_content.txt` with the in-memory
hash set, for every state at an iteration boundary (a raise has no boundary). -/
lemma crawl_step_disk (s : CrawlState)
    (hinv : s.store.diskHashes = s.store.contentHashes) :
    ∀ s1, (crawl_step env cfg s = .stepNext s1 ∨ crawl_step env cfg s = .stepDone s1) →
      s1.store.diskHashes = s1.store.contentHashes := by
  intro s1 hcase
  rcases crawl_step_main env cfg s with
    ⟨hu, he⟩ | ⟨hu, hb, he⟩ | ⟨u, d, r, hu, hb, hsk, he⟩ |
    ⟨u, d, r, hu, hb, hnv, hd, hn, he⟩ |
    ⟨u, d, r, st, tx, ct, hu, hb, hnv, hd, hn, hst, he⟩ |
    ⟨u, d, r, tx, ct, s4, hu, hb, hnv, hd, hn, hp, he⟩ |
    ⟨u, d, r, tx, ct, s4, hu, hb, hnv, hd, hn, hp, he⟩
  · rcases hcase with hc | hc <;> rw [he] at hc
    · exact StepOut.noConfusion hc
    · injection hc with h2
      rw [← h2]
      simp
  · rcases hcase with hc | hc <;> rw [he] at hc
    · exact StepOut.noConfusion hc
    · injection hc with h2
      rw [← h2]
      simp
  · rcases hcase with hc | hc <;> rw [he] at hc
    · injection hc with h2
      rw [← h2]
      exact hinv
    · exact StepOut.noConfusion hc
  · rcases hcase with hc | hc <;> rw [he] at hc
    · injection hc with h2
      rw [← h2]
      exact hinv
    · exact StepOut.noConfusion hc
  · rcases hcase with hc | hc <;> rw [he] at hc
    · injection hc with h2
      rw [← h2]
      simp
    · exact StepOut.noConfusion hc
  · rcases hcase with hc | hc <;> rw [he] at hc
    · exact StepOut.noConfusion hc
    · exact StepOut.noConfusion hc
  · rcases hcase with hc | hc <;> rw [he] at hc
    · injection hc with h2
      rw [← h2]
      simp
    · exact StepOut.noConfusion hc

/-- Once the page budget is reached, the loop only exits. -/
lemma crawl_step_at_budget (s : CrawlState) (h : cfg.maxPages ≤ s.pagesCrawled) :
    crawl_step env cfg s = .stepDone (save_hashes s) := by
  rcases crawl_step_main env cfg s with
    ⟨hu, he⟩ | ⟨hu, hb, he⟩ | ⟨u, d, r, hu, hb, hsk, he⟩ |
    ⟨u, d, r, hu, hb, hnv, hd, hn, he⟩ |
    ⟨u, d, r, st, tx, ct, hu, hb, hnv, hd, hn, hst, he⟩ |
    ⟨u, d, r, tx, ct, s4, hu, hb, hnv, hd, hn, hp, he⟩ |
    ⟨u, d, r, tx, ct, s4, hu, hb, hnv, hd, hn, hp, he⟩
  · exact he
  · exact he
  · exact absurd h (not_le.mpr hb)
  · exact absurd h (not_le.mpr hb)
  · exact absurd h (not_le.mpr hb)
  · exact absurd h (not_le.mpr hb)
  · exact absurd h (not_le.mpr hb)

end Lemmas

/-- C5: throughout every run of `crawl()`, `pages_crawled` never exceeds
`maxPages` — the loop-delivered state and every single-step state respect the
bound, and once `pages_crawled` has reached `maxPages` the step only exits
(no further fetch: the fetch log is untouched). -/
theorem c5_page_bound (env : Env) (cfg : Config) (fuel : Nat) (s : CrawlState)
    (hle : s.pagesCrawled ≤ cfg.maxPages) :
    (crawl_loop env cfg fuel s).state.pagesCrawled ≤ cfg.maxPages ∧
    (crawl_step env cfg s).state.pagesCrawled ≤ cfg.maxPages ∧
    (cfg.maxPages ≤ s.pagesCrawled →
      crawl_step env cfg s = .stepDone (save_hashes s) ∧
      (save_hashes s).fetchLog = s.fetchLog) :=
  ⟨crawl_loop_pages env cfg fuel s hle,
   crawl_step_pages env cfg s hle,
   fun h => ⟨crawl_step_at_budget env cfg s h, rfl⟩⟩

/-- Witness for C5 at a state sitting exactly at the budget of a concrete
configuration. -/
theorem c5_page_bound_witness :
    (crawl_loop envBase cfgB2 3 stateB2).state.pagesCrawled ≤ cfgB2.maxPages ∧
    (crawl_step envBase cfgB2 stateB2).state.pagesCrawled ≤ cfgB2.maxPages ∧
    (cfgB2.maxPages ≤ stateB2.pagesCrawled →
      crawl_step envBase cfgB2 stateB2 = .stepDone (save_hashes stateB2) ∧
      (save_hashes stateB2).fetchLog = stateB2.fetchLog) :=
  c5_page_bound envBase cfgB2 3 stateB2 (by decide)

/-- C6: a popped frontier entry whose depth exceeds `maxDepth` is skipped with
no fetch: the step only drops the entry, and the fetch log and the store are
untouched. -/
theorem c6_depth_skip (env : Env) (cfg : Config) (s : CrawlState) (url : String)
    (depth : Nat) (rest : List (String × Nat))
    (hpop : s.urlsToVisit = (url, depth) :: rest)
    (hb : s.pagesCrawled < cfg.maxPages)
    (hdepth : cfg.maxDepth < depth) :
    crawl_step env cfg s = .stepNext { s with urlsToVisit := rest } ∧
    (crawl_step env cfg s).state.fetchLog = s.fetchLog ∧
    (crawl_step env cfg s).state.store = s.store := by
  have hstep : crawl_step env cfg s = .stepNext { s with urlsToVisit := rest } := by
    unfold crawl_step
    rw [hpop]
    dsimp only
    rw [if_neg (not_le.mpr hb), if_pos (Or.inr hdepth)]
  refine ⟨hstep, ?_, ?_⟩ <;> rw [hstep] <;> rfl

/-- Witness for C6 at a concrete state whose frontier head has depth 5 against
`maxDepth = 2`. -/
theorem c6_depth_skip_witness :
    crawl_step envBase cfgW stateC6 = .stepNext { stateC6 with urlsToVisit := [] } ∧
    (crawl_step envBase cfgW stateC6).state.fetchLog = stateC6.fetchLog ∧
    (crawl_step envBase cfgW stateC6).state.store = stateC6.store :=
  c6_depth_skip envBase cfgW stateC6 "https://h/deep" 5 [] rfl (by decide) (by decide)

/-- C7: the hashed-content file on disk agrees with the in-memory hash set at
every loop-iteration boundary — the agreement holds initially and is preserved
by every iteration that reaches the next loop boundary or the loop exit. -/
theorem c7_ledger_agreement (env : Env) (cfg : Config) (s : CrawlState)
    (hinv : s.store.diskHashes = s.store.contentHashes) :
    (∀ s1, crawl_step env cfg s = .stepNext s1 →
        s1.store.diskHashes = s1.store.contentHashes) ∧
    (∀ s1, crawl_step env cfg s = .stepDone s1 →
        s1.store.diskHashes = s1.store.contentHashes) ∧
    ∀ hashes, (init_state cfg hashes).store.diskHashes =
        (init_state cfg hashes).store.contentHashes :=
  ⟨fun s1 h => crawl_step_disk env cfg s hinv s1 (Or.inl h),
   fun s1 h => crawl_step_disk env cfg s hinv s1 (Or.inr h),
   fun _ => rfl⟩

/-- Witness for C7 at a concrete step (the start URL's fetch raises, and the
resulting boundary state still satisfies the agreement). -/
theorem c7_ledger_agreement_witness :
    ({ init_state cfgW [] with
        urlsToVisit := [], visited := ["https://h/a"],
        fetchLog := ["https://h/a"] } : CrawlState).store.diskHashes =
      ({ init_state cfgW [] with
          urlsToVisit := [], visited := ["https://h/a"],
          fetchLog := ["https://h/a"] } : CrawlState).store.contentHashes :=
  (c7_ledger_agreement envBase cfgW (init_state cfgW []) rfl).1 _ (by decide)

/-- C8: every entry of the frontier after `parse_links` either predates the
call or is a resolved anchor of the page, enqueued at `depth + 1`, whose
netloc contains a configured allowed-domain substring and which was not
already visited — in particular a link whose host contains no allowed-domain
substring is never enqueued. -/
theorem c8_link_filter (env : Env) (cfg : Config) (s : CrawlState) (doc : HtmlDoc)
    (baseUrl : String) (depth : Nat) :
    (∀ e, e ∈ (parse_links env cfg s doc baseUrl depth).urlsToVisit →
      e ∈ s.urlsToVisit ∨
      (e.2 = depth + 1 ∧ link_allowed env cfg e.1 = true ∧ e.1 ∉ s.visited ∧
       ∃ raw, raw ∈ doc.anchors ∧ e.1 = resolve_href env baseUrl raw)) ∧
    (∀ raw, raw ∈ doc.anchors →
      link_allowed env cfg (resolve_href env baseUrl raw) = true →
      resolve_href env baseUrl raw ∉ s.visited →
      (resolve_href env baseUrl raw, depth + 1) ∈
        (parse_links env cfg s doc baseUrl depth).urlsToVisit) := by
  constructor
  · intro e he
    obtain ⟨t, ht, hgood⟩ := parse_links_urls env cfg s doc baseUrl depth
    rw [ht] at he
    rcases List.mem_append.mp he with h | h
    · exact Or.inl h
    · obtain ⟨raw, hraw, heq, hall, hnv⟩ := hgood e h
      subst heq
      exact Or.inr ⟨rfl, hall, hnv, raw, hraw, rfl⟩
  · intro raw hraw hall hnv
    exact parse_links_mem env cfg s doc baseUrl depth raw hraw hall hnv

/-- Witness for C8: a concrete in-domain anchor is enqueued at depth 1 and
satisfies the filter description. -/
theorem c8_link_filter_witness :
    (("https://good.org/a", 1) ∈ stateC8.urlsToVisit ∨
     ((("https://good.org/a", 1) : String × Nat).2 = 0 + 1 ∧
      link_allowed envBase cfgC8 (("https://good.org/a", 1) : String × Nat).1 = true ∧
      (("https://good.org/a", 1) : String × Nat).1 ∉ stateC8.visited ∧
      ∃ raw, raw ∈ docC8.anchors ∧
        (("https://good.org/a", 1) : String × Nat).1 =
          resolve_href envBase "https://good.org/base" raw)) ∧
    (resolve_href envBase "https://good.org/base" "https://good.org/a", 0 + 1) ∈
      (parse_links envBase cfgC8 stateC8 docC8 "https://good.org/base" 0).urlsToVisit := by
  have h := c8_link_filter envBase cfgC8 stateC8 docC8 "https://good.org/base" 0
  exact ⟨h.1 ("https://good.org/a", 1) (by decide),
    h.2 "https://good.org/a" (by decide) (by decide) (by decide)⟩

/-- C4: the dedup gate — a page payload whose hash is already in the ledger is
a complete no-op (the returned state is the argument state, so no artifact is
written), a fresh page hash is recorded in the resulting ledger whether the
routed extraction returns or raises, an image payload whose hash is present
leaves the store untouched, and a fresh image payload gets its hash appended
and its file written. -/
theorem c4_dedup_gate (env : Env) (cfg : Config) :
    (∀ (s : CrawlState) (text content url : String) (depth : Nat),
       strContains (strToLower text) "surge protection" = false →
       env.md5hex content ∈ s.store.contentHashes →
       process_response env cfg s text content url depth = .ok s) ∧
    (∀ (s : CrawlState) (text content url : String) (depth : Nat),
       strContains (strToLower text) "surge protection" = false →
       env.md5hex content ∉ s.store.contentHashes →
       env.md5hex content ∈
         (ecstate (process_response env cfg s text content url depth)).store.contentHashes) ∧
    (∀ (st : Store) (imgData imgUrl : String) (imgFilename : Option String),
       env.md5hex imgData ∈ st.contentHashes →
       process_images env st imgData imgUrl imgFilename = st) ∧
    (∀ (st : Store) (imgData imgUrl : String) (imgFilename : Option String),
       env.md5hex imgData ∉ st.contentHashes →
       strContains (strToLower imgUrl) "logo" = false →
       strContains (strToLower imgUrl) "icon" = false →
       (process_images env st imgData imgUrl imgFilename).contentHashes =
         st.contentHashes ++ [env.md5hex imgData] ∧
       (process_images env st imgData imgUrl imgFilename).files =
         upsert st.files
           (imgFilename.getD
             (url_to_filename imgUrl (strToLower (env.imageFormat imgData)) false ""))
           imgData) := by
  refine ⟨?_, ?_, ?_, ?_⟩
  · intro s text content url depth hsb hmem
    unfold process_response
    rw [if_neg (by simp [hsb])]
    dsimp only
    rw [if_pos hmem]
  · intro s text content url depth hsb hmem
    unfold process_response
    rw [if_neg (by simp [hsb])]
    dsimp only
    rw [if_neg hmem]
    by_cases hpdf : strEndsWith (strToLower url) ".pdf" = true
    · rw [if_pos hpdf]
      have hmono := process_pdf_hashMono env
        { s.store with contentHashes := s.store.contentHashes ++ [env.md5hex content] }
        url content
      rcases hpp : process_pdf env
          { s.store with contentHashes := s.store.contentHashes ++ [env.md5hex content] }
          url content with st1 | st1 <;> rw [hpp] at hmono <;> simp only [hpp] <;>
        simp only [estore_error, estore_ok] at hmono
      · simp only [ecstate_error]
        exact hmono _ (List.mem_append_right _ (List.mem_singleton_self _))
      · simp only [ecstate_ok]
        exact hmono _ (List.mem_append_right _ (List.mem_singleton_self _))
    · rw [if_neg hpdf]
      simp only [ecstate_ok]
      exact process_html_hashMono env cfg _ url (env.parseHtml text) _
        (List.mem_append_right _ (List.mem_singleton_self _))
  · intro st imgData imgUrl imgFilename hmem
    unfold process_images
    dsimp only
    by_cases h1 : (!strContains (strToLower imgUrl) "logo" &&
        !strContains (strToLower imgUrl) "icon") = true
    · rw [if_pos h1, if_pos hmem]
    · rw [if_neg h1]
  · intro st imgData imgUrl imgFilename hmem hlogo hicon
    unfold process_images
    dsimp only
    rw [if_pos (by simp [hlogo, hicon]), if_neg hmem]
    cases imgFilename <;> exact ⟨rfl, rfl⟩

/-- Witness for C4 at concrete payloads: a duplicate page hash is a no-op, a
duplicate image hash is a no-op, and a fresh image hash is appended. -/
theorem c4_dedup_gate_witness :
    process_response envBase cfgW (init_state cfgW ["c"]) "x" "c" "u" 0 =
      .ok (init_state cfgW ["c"]) ∧
    process_images envBase { store0 with contentHashes := ["c"] } "c" "https://h/i"
      none = { store0 with contentHashes := ["c"] } ∧
    (process_images envBase store0 "c" "https://h/i" none).contentHashes =
      [] ++ ["c"] := by
  refine ⟨?_, ?_, ?_⟩
  · exact (c4_dedup_gate envBase cfgW).1 _ "x" "c" "u" 0 (by decide) (by decide)
  · exact (c4_dedup_gate envBase cfgW).2.2.1 _ "c" "https://h/i" none (by decide)
  · exact ((c4_dedup_gate envBase cfgW).2.2.2 store0 "c" "https://h/i" none
      (by decide) (by decide) (by decide)).1

/-- C10: a 200 response detected as a soft block still has its links parsed
and enqueued and still increments `pages_crawled` — the soft-blocked page
consumes one unit of the page budget, the popped entry is re-enqueued, and
every allowed unvisited anchor of the interstitial page is enqueued at
`depth + 1`. -/
theorem c10_softblock_consumes_budget (env : Env) (cfg : Config) (s : CrawlState)
    (url : String) (depth : Nat) (rest : List (String × Nat)) (text content : String)
    (hpop : s.urlsToVisit = (url, depth) :: rest)
    (hb : s.pagesCrawled < cfg.maxPages)
    (hnv : url ∉ s.visited)
    (hd : depth ≤ cfg.maxDepth)
    (hnet : env.net url (s.fetchLog.count url) = .httpResp 200 text content)
    (hsb : strContains (strToLower text) "surge protection" = true) :
    (crawl_step env cfg s).isNext = true ∧
    (crawl_step env cfg s).state.pagesCrawled = s.pagesCrawled + 1 ∧
    (url, depth) ∈ (crawl_step env cfg s).state.urlsToVisit ∧
    ∀ raw, raw ∈ (env.parseHtml text).anchors →
      link_allowed env cfg (resolve_href env url raw) = true →
      resolve_href env url raw ∉ url :: s.visited →
      (resolve_href env url raw, depth + 1) ∈
        (crawl_step env cfg s).state.urlsToVisit := by
  have hpr := process_response_softblock env cfg
    { s with urlsToVisit := rest, visited := url :: s.visited,
             fetchLog := s.fetchLog ++ [url] } text content url depth hsb
  have hstep : crawl_step env cfg s = .stepNext (save_hashes
      { parse_links env cfg
          { s with urlsToVisit := rest ++ [(url, depth)], visited := url :: s.visited,
                   fetchLog := s.fetchLog ++ [url],
                   sleepLog := s.sleepLog ++ [cfg.retryDelay] }
          (env.parseHtml text) url depth with
        pagesCrawled := (parse_links env cfg
          { s with urlsToVisit := rest ++ [(url, depth)], visited := url :: s.visited,
                   fetchLog := s.fetchLog ++ [url],
                   sleepLog := s.sleepLog ++ [cfg.retryDelay] }
          (env.parseHtml text) url depth).pagesCrawled + 1,
        sleepLog := (parse_links env cfg
          { s with urlsToVisit := rest ++ [(url, depth)], visited := url :: s.visited,
                   fetchLog := s.fetchLog ++ [url],
                   sleepLog := s.sleepLog ++ [cfg.retryDelay] }
          (env.parseHtml text) url depth).sleepLog ++ [cfg.delay] }) := by
    unfold crawl_step
    rw [hpop]
    dsimp only
    rw [if_neg (not_le.mpr hb), if_neg (not_or.mpr ⟨hnv, not_lt.mpr hd⟩), hnet]
    dsimp only
    rw [if_pos rfl, hpr]
  rw [hstep]
  refine ⟨rfl, ?_, ?_, ?_⟩
  · simp only [stepOut_state_next, save_hashes_pages]
    show (parse_links env cfg _ (env.parseHtml text) url depth).pagesCrawled + 1 =
      s.pagesCrawled + 1
    rw [(parse_links_frame env cfg _ _ _ _).2.1]
  · simp only [stepOut_state_next, save_hashes_urls]
    show (url, depth) ∈
      (parse_links env cfg _ (env.parseHtml text) url depth).urlsToVisit
    obtain ⟨t, ht, _⟩ := parse_links_urls env cfg _
      (env.parseHtml text) url depth
    rw [ht]
    exact List.mem_append_left _
      (List.mem_append_right _ (List.mem_singleton_self _))
  · intro raw hraw hall hnvr
    simp only [stepOut_state_next, save_hashes_urls]
    show (resolve_href env url raw, depth + 1) ∈
      (parse_links env cfg _ (env.parseHtml text) url depth).urlsToVisit
    exact parse_links_mem env cfg _ (env.parseHtml text) url depth
      raw hraw hall hnvr

/-- Witness for C10: a concrete soft-blocked page still bumps the counter,
re-enqueues its entry and enqueues the interstitial page's in-domain anchor. -/
theorem c10_softblock_consumes_budget_witness :
    (crawl_step envC10 cfgC10 (init_state cfgC10 [])).isNext = true ∧
    (crawl_step envC10 cfgC10 (init_state cfgC10 [])).state.pagesCrawled =
      (init_state cfgC10 []).pagesCrawled + 1 ∧
    ("https://h/sb", 0) ∈ (crawl_step envC10 cfgC10 (init_state cfgC10 [])).state.urlsToVisit ∧
    (resolve_href envC10 "https://h/sb" "https://h/next", 0 + 1) ∈
      (crawl_step envC10 cfgC10 (init_state cfgC10 [])).state.urlsToVisit := by
  have h := c10_softblock_consumes_budget envC10 cfgC10 (init_state cfgC10 [])
    "https://h/sb" 0 [] "surge protection active" "sb" (by decide) (by decide)
    (by decide) (by decide) (by decide) (by decide)
  exact ⟨h.1, h.2.1, h.2.2.1, h.2.2.2 "https://h/next" (by decide) (by decide) (by decide)⟩

/-- C3, counterexample: a mis-suffixed resource (a `.pdf` URL serving a
non-PDF body) raises in the extractor, the raise is not caught, and the crawl
terminates with the frontier non-empty and the page budget unreached —
refuting "no extraction error is fatal; the process stops only by frontier
exhaustion or `maxPages`". -/
theorem c3_extraction_error_kills_crawl :
    (crawl_loop envC3 cfgC3 5 (init_state cfgC3 [])).isCrashed = true ∧
    (crawl_loop envC3 cfgC3 5 (init_state cfgC3 [])).state.urlsToVisit =
      [("https://h/b", 0)] ∧
    (crawl_loop envC3 cfgC3 5 (init_state cfgC3 [])).state.pagesCrawled = 0 ∧
    cfgC3.maxPages = 10 := by
  decide

/-- C3, amended: a `requests.RequestException` during a page fetch is caught
and the loop continues to the next frontier entry, and a normally finished
crawl stopped only by frontier exhaustion or the page budget; other
extractor-level errors propagate (see the counterexample). -/
theorem c3_amended_error_policy (env : Env) (cfg : Config) (s : CrawlState)
    (url : String) (depth : Nat) (rest : List (String × Nat)) (fuel : Nat)
    (s1 : CrawlState)
    (hpop : s.urlsToVisit = (url, depth) :: rest)
    (hb : s.pagesCrawled < cfg.maxPages)
    (hnv : url ∉ s.visited)
    (hd : depth ≤ cfg.maxDepth)
    (hexc : env.net url (s.fetchLog.count url) = .requestExc) :
    crawl_step env cfg s = .stepNext
      { s with urlsToVisit := rest, visited := url :: s.visited,
               fetchLog := s.fetchLog ++ [url] } ∧
    (crawl_loop env cfg fuel s = .finished s1 →
      s1.urlsToVisit = [] ∨ cfg.maxPages ≤ s1.pagesCrawled) := by
  constructor
  · unfold crawl_step
    rw [hpop]
    dsimp only
    rw [if_neg (not_le.mpr hb), if_neg (not_or.mpr ⟨hnv, not_lt.mpr hd⟩), hexc]
  · exact crawl_loop_finished_inv env cfg fuel s s1

/-- Witness for the amended C3 at a concrete failing fetch. -/
theorem c3_amended_error_policy_witness :
    crawl_step envBase cfgW (init_state cfgW []) = .stepNext stateFinW ∧
    (crawl_loop envBase cfgW 3 (init_state cfgW []) = .finished stateFinW →
      stateFinW.urlsToVisit = [] ∨ cfgW.maxPages ≤ stateFinW.pagesCrawled) :=
  c3_amended_error_policy envBase cfgW (init_state cfgW []) "https://h/a" 0 [] 3
    stateFinW rfl (by decide) (by decide) (by decide) (by decide)

/-- C1: in the soft-block-then-200 scenario the popped `(url, depth)` is
re-enqueued at the frontier tail, but the crawl finishes with exactly one
fetch of the URL in the fetch log (the re-enqueued entry is skipped by the
visited check, so the retry fetch never happens) and no artifact file is ever
written — against the claimed one retry and one artifact set. -/
theorem c1_softblock_reenqueued_but_never_retried :
    (crawl_step envC1 cfgC1 (init_state cfgC1 [])).state.urlsToVisit =
      [("https://h/a", 0)] ∧
    (crawl_loop envC1 cfgC1 5 (init_state cfgC1 [])).isFinished = true ∧
    (crawl_loop envC1 cfgC1 5 (init_state cfgC1 [])).state.fetchLog =
      ["https://h/a"] ∧
    (crawl_loop envC1 cfgC1 5 (init_state cfgC1 [])).state.store.files = [] ∧
    (crawl_loop envC1 cfgC1 5 (init_state cfgC1 [])).state.pagesCrawled = 1 := by
  decide

/-- C2: on a two-page PDF with page texts "A" and "B" the text pass returns
normally and writes one file under the derived name, but its content is the
last page's text `"B\n"` — not the spec's concatenation of all pages
`"\nA\n\nB\n"` (the loop accumulates that concatenation in a variable the
write never uses). -/
theorem c2_pdf_text_writes_last_page_only :
    exOk (scrape_text_from_pdf envC2 store0 "https://h/d.pdf" "rawpdf") = true ∧
    (estore (scrape_text_from_pdf envC2 store0 "https://h/d.pdf" "rawpdf")).files =
      [("h_d_pdf.txt", "B\n")] ∧
    pdf_text_concat_spec ["A", "B"] = "\nA\n\nB\n" ∧
    ("B\n" : String) ≠ pdf_text_concat_spec ["A", "B"] := by
  decide

/-- C9: two parseable `<table>` elements on one HTML page both derive the same
filename (the enumerate index is unused), so the second write overwrites the
first and a single file remains — while PDF tables do get index-disambiguated
names. -/
theorem c9_html_table_filename_collision :
    url_to_filename "https://h/p" "csv" false "" = "h_p.csv" ∧
    (scrape_tables_from_html envC9 store0 "https://h/p" docC9).files =
      [("h_p.csv", "csv2")] ∧
    url_to_filename "https://h/d.pdf" "" true "_page_1_table_1.csv" ≠
      url_to_filename "https://h/d.pdf" "" true "_page_1_table_2.csv" := by
  decide

end WebCrawler
